import Mathlib

/-!
Shallow embedding of `src/go/src/ct/scanner/scanner.go` (package `scanner`)
from the certificate-transparency repository, together with proofs of the
specification's claims about it.

External collaborators (the `ct/client` log transport, Go's `crypto/x509`
certificate parser and `regexp` engine) are out of scope for the spec and are
modelled abstractly: parsers are passed in as functions returning
`Except String _` (mirroring Go's `(value, error)` returns), and a compiled
regular expression is modelled by its `FindStringIndex` behaviour, an abstract
`String → Option (Nat × Nat)` (Go returns `nil` or a two-element slice).

Concurrency note: the Go pipeline runs fetch and match workers in parallel.
The properties claimed (which classify jobs exist, counter totals, per-batch
index order, return value) are independent of the interleaving, so the
pipeline is modelled by its sequential composition: ranges are generated,
each range is fetched to completion (retrying through its response schedule),
and every delivered job is processed by `processEntry`.
-/

namespace Scanner

/-- Raw leaf bytes handed back by the log transport (Go `client.LeafInput`,
a byte slice). -/
abbrev LeafInput := List Nat

/-- The subject name of a certificate; only the common name is consulted by
the scanner (Go `pkix.Name`). -/
structure Name where
  commonName : String
deriving DecidableEq

/-- The fields of Go's `x509.Certificate` that the scanner reads. -/
structure Certificate where
  subject : Name
  dnsNames : List String
deriving DecidableEq

/-- A matcher is Go's `Matcher` interface collapsed to its single method
`CertificateMatches`. -/
abbrev Matcher := Certificate → Bool

/-- Go `MatchAll`. -/
structure MatchAll where
deriving DecidableEq

/-- Go method `MatchAll.CertificateMatches`: always `true`. -/
def MatchAll.CertificateMatches (_ : MatchAll) (_ : Certificate) : Bool :=
  true

/-- Go `MatchNone`. -/
structure MatchNone where
deriving DecidableEq

/-- Go method `MatchNone.CertificateMatches`: always `false`. -/
def MatchNone.CertificateMatches (_ : MatchNone) (_ : Certificate) : Bool :=
  false

/-- A compiled regular expression, modelled by its `FindStringIndex`
behaviour: `none` stands for Go's `nil` result (no match anywhere in the
string), `some loc` for a two-element match-location slice. -/
structure Regexp where
  findStringIndex : String → Option (Nat × Nat)

/-- Go `MatchSubjectRegex`: a matcher holding a compiled regex. -/
structure MatchSubjectRegex where
  subjectRegex : Regexp

/-- Go `MatchSubjectRegex.CertificateMatches`: true when the regex finds a
match in the subject common name, otherwise scans the DNS alternative names
and returns true on the first that matches, else false. -/
def MatchSubjectRegex.CertificateMatches (m : MatchSubjectRegex)
    (c : Certificate) : Bool :=
  if (m.subjectRegex.findStringIndex c.subject.commonName).isSome then
    true
  else
    c.dnsNames.any fun alt => (m.subjectRegex.findStringIndex alt).isSome

/-- Entry types of a timestamped entry (RFC 6962). The Go `switch` in
`processEntry` has cases only for the X.509 and precert types; any other
value falls through. -/
inductive LogEntryType where
  | x509LogEntryType
  | precertLogEntryType
  | unknownLogEntryType (code : Nat)
deriving DecidableEq

/-- The fields of the parsed `client.MerkleTreeLeaf`'s timestamped entry read
by `processEntry`. -/
structure TimestampedEntry where
  entryType : LogEntryType
  x509Entry : LeafInput
deriving DecidableEq

/-- Parsed Merkle tree leaf (Go `client.MerkleTreeLeaf`), restricted to the
fields the scanner reads. -/
structure MerkleTreeLeaf where
  timestampedEntry : TimestampedEntry
deriving DecidableEq

/-- Go `ScannerOptions`. `matcher` is the configured `Matcher`'s
`CertificateMatches` method. -/
structure ScannerOptions where
  matcher : Matcher
  blockSize : Int
  numWorkers : Int
  parallelFetch : Int
  startIndex : Int

/-- Observable side effects of the scanner: log lines (`log.Printf`) and the
two caller callbacks `foundCert` / `foundPrecert`. -/
inductive Event where
  | logLine (msg : String)
  | certCallback (index : Int) (cert : Certificate)
  | precertCallback (index : Int) (payload : String)
deriving DecidableEq

/-- The two shared counters of Go `Scanner` (`certsProcessed`,
`precertsSeen`). -/
structure ScanState where
  certsProcessed : Int
  precertsSeen : Int
deriving DecidableEq

/-- Go `matcherJob`: one classify job, a raw leaf plus its log index. -/
structure matcherJob where
  leaf : LeafInput
  index : Int
deriving DecidableEq

/-- Go `fetchRange`: an inclusive range of entry indices to fetch. -/
structure fetchRange where
  start : Int
  «end» : Int
deriving DecidableEq

/-- Go `Scanner.processEntry`: increments `certsProcessed`, parses the leaf,
and dispatches on the entry type. Returns the updated counters and the
emitted events, in order. `newMerkleTreeLeaf` models
`client.NewMerkleTreeLeaf`, `parseCertificate` models
`x509.ParseCertificate`; both are external parsers passed in abstractly. -/
def processEntry (newMerkleTreeLeaf : LeafInput → Except String MerkleTreeLeaf)
    (parseCertificate : LeafInput → Except String Certificate)
    (matcher : Matcher) (st : ScanState) (index : Int) (leafInput : LeafInput) :
    ScanState × List Event :=
  let st := { st with certsProcessed := st.certsProcessed + 1 }
  match newMerkleTreeLeaf leafInput with
  | .error e =>
      (st, [.logLine ("Failed to parse MerkleTreeLeaf at index " ++
        toString index ++ " : " ++ e)])
  | .ok leaf =>
      match leaf.timestampedEntry.entryType with
      | .x509LogEntryType =>
          match parseCertificate leaf.timestampedEntry.x509Entry with
          | .error e =>
              (st, [.logLine ("Failed to parse cert at index " ++
                toString index ++ " : " ++ e)])
          | .ok cert =>
              if matcher cert then
                (st, [.certCallback index cert])
              else
                (st, [])
      | .precertLogEntryType =>
          ({ st with precertsSeen := st.precertsSeen + 1 },
           [.logLine ("Precert not yet supported (index " ++
              toString index ++ ")."),
            .precertCallback index ""])
      | .unknownLogEntryType _ =>
          (st, [])

/-- The inner emission loop of `fetcherJob`: for each returned leaf, in
order, emit `matcherJob{leaf, r.start}` and increment `r.start`. -/
def emitJobs : List LeafInput → Int → List matcherJob
  | [], _ => []
  | l :: ls, cursor => ⟨l, cursor⟩ :: emitJobs ls (cursor + 1)

/-- The retry loop of `fetcherJob` for a single `fetchRange`, run against a
schedule of transport responses: each `GetEntries(cursor, end)` call consumes
the next schedule entry; an `error` response is logged and retried, an `ok`
response's leaves are emitted with consecutive indices and the cursor
advances by their count; the batch completes (`some jobs`) once
`cursor > end`. `none` marks a schedule that runs out before completion —
the Go loop would retry forever. -/
def runFetchRange : List (Except String (List LeafInput)) → Int → Int →
    Option (List matcherJob)
  | [], _, _ => none
  | .error _ :: rest, cursor, e => runFetchRange rest cursor e
  | .ok leaves :: rest, cursor, e =>
      let jobs := emitJobs leaves cursor
      if e < cursor + leaves.length then
        some jobs
      else
        match runFetchRange rest (cursor + leaves.length) e with
        | none => none
        | some more => some (jobs ++ more)

/-- The claim's hypothesis on the transport, tracked along the run of
`runFetchRange`: every successful `GetEntries(cursor, end)` call returns at
least one and at most `end - cursor + 1` leaves, and the schedule completes
the batch (finitely many failures before enough successes). -/
def goodResponses : List (Except String (List LeafInput)) → Int → Int → Bool
  | [], _, _ => false
  | .error _ :: rest, cursor, e => goodResponses rest cursor e
  | .ok leaves :: rest, cursor, e =>
      decide (1 ≤ leaves.length) &&
      decide ((cursor + leaves.length : Int) ≤ e + 1) &&
      (if e < cursor + leaves.length then true
       else goodResponses rest (cursor + leaves.length) e)

/-- The range-generation loop of `Scan`:
`for start := startIndex; start < treeSize; { end := min(start+blockSize,
treeSize-1); push {start, end}; start = end + 1 }`, written with explicit
fuel (the Go loop terminates whenever `blockSize ≥ 0`, and
`(treeSize - start).toNat` steps then always suffice since `start` advances
by at least one per iteration). -/
def genRangesAux (treeSize blockSize : Int) : Nat → Int → List fetchRange
  | 0, _ => []
  | fuel + 1, start =>
      if start < treeSize then
        ⟨start, min (start + blockSize) (treeSize - 1)⟩ ::
          genRangesAux treeSize blockSize fuel
            (min (start + blockSize) (treeSize - 1) + 1)
      else []

/-- The batch ranges `Scan` pushes onto its `ranges` list. -/
def genRanges (startIndex treeSize blockSize : Int) : List fetchRange :=
  genRangesAux treeSize blockSize (treeSize - startIndex).toNat startIndex

/-- The signed tree head; only `treeSize` is used (Go reads
`latestSth.TreeSize`, a `uint64`, always through an `int64` cast). -/
structure STH where
  treeSize : Int
deriving DecidableEq

/-- The log transport (Go `client.LogClient`) as the scanner observes it in
one run: the result of the single `GetSTH` call, and for each batch range the
schedule of successive `GetEntries` responses its fetch worker receives. -/
structure LogClient where
  getSTH : Except String STH
  entriesSchedule : fetchRange → List (Except String (List LeafInput))

/-- Sequential composition of the fetch workers: each range is fetched to
completion in turn; `none` if some range's schedule never completes it. -/
def runBatches (sched : fetchRange → List (Except String (List LeafInput))) :
    List fetchRange → Option (List matcherJob)
  | [] => some []
  | r :: rs =>
      match runFetchRange (sched r) r.start r.«end» with
      | none => none
      | some jobs =>
          match runBatches sched rs with
          | none => none
          | some more => some (jobs ++ more)

/-- The matcher workers' loop: every delivered job is handed to
`processEntry`; counters thread through, events accumulate in order. -/
def processJobs (newMerkleTreeLeaf : LeafInput → Except String MerkleTreeLeaf)
    (parseCertificate : LeafInput → Except String Certificate)
    (matcher : Matcher) : ScanState → List matcherJob → ScanState × List Event
  | st, [] => (st, [])
  | st, j :: js =>
      let r := processEntry newMerkleTreeLeaf parseCertificate matcher st
        j.index j.leaf
      let rest := processJobs newMerkleTreeLeaf parseCertificate matcher r.1 js
      (rest.1, r.2 ++ rest.2)

/-- Everything observable when `Scan` returns `nil`: final counters, the
classify jobs that were delivered, the events emitted while processing them,
and the state of the progress-reporter ticker. `Scan` calls
`time.NewTicker(time.Second)` after the STH is fetched (`tickerStarted`) and
never calls `ticker.Stop()` on any path (`tickerStopped`). -/
structure ScanResult where
  certsProcessed : Int
  precertsSeen : Int
  jobs : List matcherJob
  events : List Event
  tickerStarted : Bool
  tickerStopped : Bool
deriving DecidableEq

/-- How a run of `Scan` ends: `fatal e` is the early `return err` after a
failed `GetSTH` (no ticker started, no batch enqueued, no worker started);
`hang` marks a run in which some batch's fetch never completes, so the Go
call never returns; `done` is the `return nil` path with its observables. -/
inductive ScanOutcome where
  | fatal (err : String)
  | hang
  | done (res : ScanResult)
deriving DecidableEq

/-- Go `Scanner.Scan`: reset the counters, fetch the STH (propagating its
error immediately), start the ticker, generate the batch ranges, run the
fetch and match pipeline, and return `nil`. -/
def Scan (client : LogClient) (opts : ScannerOptions)
    (newMerkleTreeLeaf : LeafInput → Except String MerkleTreeLeaf)
    (parseCertificate : LeafInput → Except String Certificate) : ScanOutcome :=
  match client.getSTH with
  | .error e => .fatal e
  | .ok sth =>
      let ranges := genRanges opts.startIndex sth.treeSize opts.blockSize
      match runBatches client.entriesSchedule ranges with
      | none => .hang
      | some jobs =>
          let r := processJobs newMerkleTreeLeaf parseCertificate opts.matcher
            ⟨0, 0⟩ jobs
          .done { certsProcessed := r.1.certsProcessed,
                  precertsSeen := r.1.precertsSeen,
                  jobs := jobs,
                  events := r.2,
                  tickerStarted := true,
                  tickerStopped := false }

/-- The list `[s, s+1, …, s+n-1]` of consecutive integers. -/
def intRange (s : Int) (n : Nat) : List Int :=
  (List.range n).map fun (i : Nat) => s + (i : Int)

/-- The indices spanned by one batch range, in order. -/
def rangeIndices (r : fetchRange) : List Int :=
  intRange r.start (r.«end» + 1 - r.start).toNat

/-- Fixture: a leaf parser that rejects every input, exercising the
`NewMerkleTreeLeaf` failure path. -/
def leafParserFail : LeafInput → Except String MerkleTreeLeaf :=
  fun _ => .error "truncated"

/-- Fixture: a certificate parser that rejects every input. -/
def certParserFail : LeafInput → Except String Certificate :=
  fun _ => .error "bad der"

/-- Fixture: a leaf parser with one input of each interesting shape. -/
def leafParserDemo : LeafInput → Except String MerkleTreeLeaf
  | [1] => .ok ⟨⟨.precertLogEntryType, []⟩⟩
  | [2] => .ok ⟨⟨.unknownLogEntryType 3, []⟩⟩
  | [0] => .ok ⟨⟨.x509LogEntryType, [7]⟩⟩
  | _ => .error "truncated"

/-- Fixture: a transport whose `GetSTH` call fails. -/
def clientBad : LogClient :=
  { getSTH := .error "boom", entriesSchedule := fun _ => [] }

/-- Fixture: a transport reporting an empty log. -/
def clientEmpty : LogClient :=
  { getSTH := .ok ⟨0⟩, entriesSchedule := fun _ => [] }

/-- Fixture: a three-entry log whose transport fails once and then delivers
the single batch in two partial chunks. -/
def clientSmall : LogClient :=
  { getSTH := .ok ⟨3⟩,
    entriesSchedule := fun _ =>
      [.error "net", .ok [[10]], .ok [[11], [12]]] }

/-- Fixture: default-looking scanner options. -/
def optsDefault : ScannerOptions :=
  { matcher := fun _ => true, blockSize := 10, numWorkers := 1,
    parallelFetch := 1, startIndex := 0 }

/-- Fixture: options whose start index lies beyond the (empty) tree. -/
def optsPastEnd : ScannerOptions :=
  { matcher := fun _ => true, blockSize := 10, numWorkers := 1,
    parallelFetch := 1, startIndex := 1 }

theorem intRange_zero (s : Int) : intRange s 0 = [] :=
  rfl

theorem intRange_succ_cons (s : Int) (n : Nat) :
    intRange s (n + 1) = s :: intRange (s + 1) n := by
  unfold intRange
  rw [List.range_succ_eq_map, List.map_cons, List.map_map]
  refine congrArg₂ List.cons (by simp) (List.map_congr_left ?_)
  intro i _
  simp only [Function.comp_apply]
  push_cast
  ring

theorem intRange_append (s : Int) (a b : Nat) :
    intRange s (a + b) = intRange s a ++ intRange (s + a) b := by
  unfold intRange
  rw [List.range_add, List.map_append, List.map_map]
  refine congrArg₂ (· ++ ·) rfl (List.map_congr_left ?_)
  intro i _
  simp only [Function.comp_apply]
  push_cast
  ring

theorem emitJobs_map_index (leaves : List LeafInput) (c : Int) :
    (emitJobs leaves c).map matcherJob.index = intRange c leaves.length := by
  induction leaves generalizing c with
  | nil => rfl
  | cons l ls ih =>
      rw [emitJobs, List.map_cons, List.length_cons, intRange_succ_cons, ih]

/-- Partial-correctness core of the fetch worker's retry loop: under the
transport hypothesis of `goodResponses`, a batch entered with
`cursor ≤ end` completes and the emitted jobs carry exactly the indices
`cursor, cursor+1, …, end` in order. -/
theorem runFetchRange_good (responses : List (Except String (List LeafInput))) :
    ∀ cursor e : Int, cursor ≤ e →
    goodResponses responses cursor e = true →
    ∃ jobs, runFetchRange responses cursor e = some jobs ∧
      jobs.map matcherJob.index = intRange cursor (e + 1 - cursor).toNat := by
  induction responses with
  | nil =>
      intro c e _ hg
      simp [goodResponses] at hg
  | cons resp rest ih =>
      intro c e hce hg
      match resp with
      | .error m =>
          rw [goodResponses] at hg
          rw [runFetchRange]
          exact ih c e hce hg
      | .ok leaves =>
          rw [goodResponses, Bool.and_assoc, Bool.and_eq_true, Bool.and_eq_true,
            decide_eq_true_eq, decide_eq_true_eq] at hg
          obtain ⟨-, hle, hrest⟩ := hg
          rw [runFetchRange]
          by_cases hdone : e < c + leaves.length
          · rw [if_pos hdone]
            refine ⟨emitJobs leaves c, rfl, ?_⟩
            rw [emitJobs_map_index]
            congr 1
            omega
          · rw [if_neg hdone]
            rw [if_neg hdone] at hrest
            obtain ⟨more, hrun, hmap⟩ :=
              ih (c + leaves.length) e (by omega) hrest
            rw [hrun]
            refine ⟨emitJobs leaves c ++ more, rfl, ?_⟩
            rw [List.map_append, emitJobs_map_index, hmap]
            have hsplit : (e + 1 - c).toNat =
                leaves.length + (e + 1 - (c + leaves.length)).toNat := by
              omega
            rw [hsplit, intRange_append]

theorem intRange_length (s : Int) (n : Nat) : (intRange s n).length = n := by
  rw [intRange, List.length_map, List.length_range]

theorem rangeIndices_def (r : fetchRange) :
    rangeIndices r = intRange r.start (r.«end» + 1 - r.start).toNat :=
  rfl

theorem genRangesAux_flatten (treeSize blockSize : Int) (hb : 0 ≤ blockSize) :
    ∀ (fuel : Nat) (start : Int), (treeSize - start).toNat ≤ fuel →
    (genRangesAux treeSize blockSize fuel start).flatMap rangeIndices =
      intRange start (treeSize - start).toNat := by
  intro fuel
  induction fuel with
  | zero =>
      intro start h
      have h0 : (treeSize - start).toNat = 0 := Nat.le_zero.mp h
      rw [genRangesAux, h0, intRange_zero, List.flatMap_nil]
  | succ fuel ih =>
      intro start h
      rw [genRangesAux]
      by_cases hs : start < treeSize
      · rw [if_pos hs, List.flatMap_cons]
        have he1 : start ≤ min (start + blockSize) (treeSize - 1) := by omega
        have he2 : min (start + blockSize) (treeSize - 1) ≤ treeSize - 1 :=
          min_le_right _ _
        rw [ih (min (start + blockSize) (treeSize - 1) + 1) (by omega)]
        rw [rangeIndices]
        have hsplit : (treeSize - start).toNat =
            (min (start + blockSize) (treeSize - 1) + 1 - start).toNat +
            (treeSize - (min (start + blockSize) (treeSize - 1) + 1)).toNat := by
          omega
        rw [hsplit, intRange_append]
        have hcast : start +
            ((min (start + blockSize) (treeSize - 1) + 1 - start).toNat : Int) =
            min (start + blockSize) (treeSize - 1) + 1 := by
          omega
        rw [hcast]
      · rw [if_neg hs, List.flatMap_nil]
        have h0 : (treeSize - start).toNat = 0 := by omega
        rw [h0, intRange_zero]

theorem genRangesAux_bounds (treeSize blockSize : Int) (hb : 0 ≤ blockSize) :
    ∀ (fuel : Nat) (start : Int), ∀ r ∈ genRangesAux treeSize blockSize fuel start,
      start ≤ r.start ∧ r.start ≤ r.«end» ∧ r.«end» ≤ treeSize - 1 := by
  intro fuel
  induction fuel with
  | zero =>
      intro start r hr
      rw [genRangesAux] at hr
      exact absurd hr (List.not_mem_nil r)
  | succ fuel ih =>
      intro start r hr
      rw [genRangesAux] at hr
      by_cases hs : start < treeSize
      · rw [if_pos hs, List.mem_cons] at hr
        rcases hr with rfl | hr
        · refine ⟨le_refl _, ?_, min_le_right _ _⟩
          show start ≤ min (start + blockSize) (treeSize - 1)
          omega
        · have := ih (min (start + blockSize) (treeSize - 1) + 1) r hr
          have hmin : start ≤ min (start + blockSize) (treeSize - 1) := by omega
          exact ⟨by omega, this.2.1, this.2.2⟩
      · rw [if_neg hs] at hr
        exact absurd hr (List.not_mem_nil r)

theorem genRangesAux_chain (treeSize blockSize : Int) (hb : 0 ≤ blockSize) :
    ∀ (fuel : Nat) (start : Int),
      (genRangesAux treeSize blockSize fuel start).Chain'
        (fun a b => a.start < b.start) := by
  intro fuel
  induction fuel with
  | zero =>
      intro start
      rw [genRangesAux]
      exact List.chain'_nil
  | succ fuel ih =>
      intro start
      rw [genRangesAux]
      by_cases hs : start < treeSize
      · rw [if_pos hs]
        rw [List.chain'_cons']
        refine ⟨?_, ih _⟩
        intro y hy
        have hmem : y ∈ genRangesAux treeSize blockSize fuel
            (min (start + blockSize) (treeSize - 1) + 1) :=
          List.mem_of_mem_head? hy
        have := genRangesAux_bounds treeSize blockSize hb fuel _ y hmem
        show start < y.start
        omega
      · rw [if_neg hs]
        exact List.chain'_nil

theorem runBatches_all_good
    (sched : fetchRange → List (Except String (List LeafInput)))
    (ranges : List fetchRange)
    (h : ∀ r ∈ ranges, ∃ jobs,
      runFetchRange (sched r) r.start r.«end» = some jobs ∧
      jobs.map matcherJob.index = rangeIndices r) :
    ∃ jobs, runBatches sched ranges = some jobs ∧
      jobs.map matcherJob.index = ranges.flatMap rangeIndices := by
  induction ranges with
  | nil => exact ⟨[], rfl, rfl⟩
  | cons r rs ih =>
      obtain ⟨jobs, hrun, hmap⟩ := h r (List.mem_cons_self r rs)
      obtain ⟨more, hruns, hmaps⟩ := ih fun r' hr' => h r' (List.mem_cons_of_mem r hr')
      refine ⟨jobs ++ more, ?_, ?_⟩
      · rw [runBatches, hrun, hruns]
      · rw [List.map_append, hmap, hmaps, List.flatMap_cons]

theorem runBatches_complete
    (sched : fetchRange → List (Except String (List LeafInput)))
    (ranges : List fetchRange)
    (h : ∀ r ∈ ranges, (runFetchRange (sched r) r.start r.«end»).isSome) :
    ∃ jobs, runBatches sched ranges = some jobs := by
  induction ranges with
  | nil => exact ⟨[], rfl⟩
  | cons r rs ih =>
      obtain ⟨jobs, hrun⟩ :=
        Option.isSome_iff_exists.mp (h r (List.mem_cons_self r rs))
      obtain ⟨more, hruns⟩ := ih fun r' hr' => h r' (List.mem_cons_of_mem r hr')
      refine ⟨jobs ++ more, ?_⟩
      rw [runBatches, hrun, hruns]

theorem processEntry_certsProcessed
    (newMerkleTreeLeaf : LeafInput → Except String MerkleTreeLeaf)
    (parseCertificate : LeafInput → Except String Certificate)
    (matcher : Matcher) (st : ScanState) (index : Int) (leafInput : LeafInput) :
    (processEntry newMerkleTreeLeaf parseCertificate matcher st index
      leafInput).1.certsProcessed = st.certsProcessed + 1 := by
  rcases hleaf : newMerkleTreeLeaf leafInput with e | leaf
  · simp [processEntry, hleaf]
  · rcases htype : leaf.timestampedEntry.entryType with _ | _ | code
    · rcases hc : parseCertificate leaf.timestampedEntry.x509Entry with e | cert
      · simp [processEntry, hleaf, htype, hc]
      · by_cases hm : matcher cert = true <;>
          simp [processEntry, hleaf, htype, hc, hm]
    · simp [processEntry, hleaf, htype]
    · simp [processEntry, hleaf, htype]

theorem processJobs_certsProcessed
    (newMerkleTreeLeaf : LeafInput → Except String MerkleTreeLeaf)
    (parseCertificate : LeafInput → Except String Certificate)
    (matcher : Matcher) :
    ∀ (jobs : List matcherJob) (st : ScanState),
    (processJobs newMerkleTreeLeaf parseCertificate matcher st
      jobs).1.certsProcessed = st.certsProcessed + jobs.length := by
  intro jobs
  induction jobs with
  | nil => intro st; simp [processJobs]
  | cons j js ih =>
      intro st
      rw [processJobs]
      have h1 := processEntry_certsProcessed newMerkleTreeLeaf parseCertificate
        matcher st j.index j.leaf
      rw [ih, h1, List.length_cons]
      push_cast
      ring

/-- C8: `MatchSubjectRegex.CertificateMatches` returns true if and only if
the compiled pattern finds a match (substring/regex search, i.e.
`FindStringIndex` non-nil) in the certificate's subject common name or in at
least one of its subject-alternative-name entries; as a plain function of the
regex behaviour and the certificate it has no side effects. -/
theorem matchSubjectRegex_matches_iff (m : MatchSubjectRegex)
    (c : Certificate) :
    m.CertificateMatches c = true ↔
      ((m.subjectRegex.findStringIndex c.subject.commonName).isSome = true ∨
       ∃ alt ∈ c.dnsNames,
         (m.subjectRegex.findStringIndex alt).isSome = true) := by
  rw [MatchSubjectRegex.CertificateMatches]
  by_cases h : (m.subjectRegex.findStringIndex c.subject.commonName).isSome =
      true
  · simp [h]
  · simp [h, List.any_eq_true]

/-- C6: a classify job whose raw leaf fails to decode is logged and dropped:
`certsProcessed` still increments by one, `precertsSeen` is unchanged, the
only event is the log line, and in particular neither callback fires. -/
theorem processEntry_malformed_leaf_logged_and_dropped
    (newMerkleTreeLeaf : LeafInput → Except String MerkleTreeLeaf)
    (parseCertificate : LeafInput → Except String Certificate)
    (matcher : Matcher) (st : ScanState) (index : Int) (leafInput : LeafInput)
    (msg : String)
    (h : newMerkleTreeLeaf leafInput = Except.error msg) :
    processEntry newMerkleTreeLeaf parseCertificate matcher st index
        leafInput =
      ({ certsProcessed := st.certsProcessed + 1,
         precertsSeen := st.precertsSeen },
       [Event.logLine ("Failed to parse MerkleTreeLeaf at index " ++
          toString index ++ " : " ++ msg)]) ∧
    ∀ ev ∈ (processEntry newMerkleTreeLeaf parseCertificate matcher st index
        leafInput).2,
      (∀ i c, ev ≠ Event.certCallback i c) ∧
      ∀ i p, ev ≠ Event.precertCallback i p := by
  have heq : processEntry newMerkleTreeLeaf parseCertificate matcher st index
      leafInput =
      ({ certsProcessed := st.certsProcessed + 1,
         precertsSeen := st.precertsSeen },
       [Event.logLine ("Failed to parse MerkleTreeLeaf at index " ++
          toString index ++ " : " ++ msg)]) := by
    simp [processEntry, h]
  refine ⟨heq, ?_⟩
  rw [heq]
  intro ev hev
  rw [List.mem_singleton] at hev
  subst hev
  exact ⟨fun i c => by simp, fun i p => by simp⟩

/-- Witness for C6 at a concrete malformed leaf. -/
theorem processEntry_malformed_leaf_logged_and_dropped_witness :
    processEntry leafParserFail certParserFail (fun _ => true) ⟨4, 2⟩ 5 [9] =
      ({ certsProcessed := 4 + 1, precertsSeen := 2 },
       [Event.logLine ("Failed to parse MerkleTreeLeaf at index " ++
          toString (5 : Int) ++ " : " ++ "truncated")]) ∧
    ∀ ev ∈ (processEntry leafParserFail certParserFail (fun _ => true) ⟨4, 2⟩
        5 [9]).2,
      (∀ i c, ev ≠ Event.certCallback i c) ∧
      ∀ i p, ev ≠ Event.precertCallback i p :=
  processEntry_malformed_leaf_logged_and_dropped leafParserFail certParserFail
    (fun _ => true) ⟨4, 2⟩ 5 [9] "truncated" rfl

/-- C7: a classify job whose leaf decodes to a precertificate entry always
logs, invokes the precert callback with exactly `(index, "")`, and increments
`precertsSeen` by one, whatever the configured matcher; the certificate
callback is never invoked on this path. -/
theorem processEntry_precert_callback_and_counter
    (newMerkleTreeLeaf : LeafInput → Except String MerkleTreeLeaf)
    (parseCertificate : LeafInput → Except String Certificate)
    (matcher : Matcher) (st : ScanState) (index : Int) (leafInput : LeafInput)
    (leaf : MerkleTreeLeaf)
    (hleaf : newMerkleTreeLeaf leafInput = Except.ok leaf)
    (htype : leaf.timestampedEntry.entryType =
      LogEntryType.precertLogEntryType) :
    processEntry newMerkleTreeLeaf parseCertificate matcher st index
        leafInput =
      ({ certsProcessed := st.certsProcessed + 1,
         precertsSeen := st.precertsSeen + 1 },
       [Event.logLine ("Precert not yet supported (index " ++
          toString index ++ ")."),
        Event.precertCallback index ""]) ∧
    ∀ i c, Event.certCallback i c ∉
      (processEntry newMerkleTreeLeaf parseCertificate matcher st index
        leafInput).2 := by
  have heq : processEntry newMerkleTreeLeaf parseCertificate matcher st index
      leafInput =
      ({ certsProcessed := st.certsProcessed + 1,
         precertsSeen := st.precertsSeen + 1 },
       [Event.logLine ("Precert not yet supported (index " ++
          toString index ++ ")."),
        Event.precertCallback index ""]) := by
    simp [processEntry, hleaf, htype]
  refine ⟨heq, ?_⟩
  rw [heq]
  intro i c hmem
  rw [List.mem_cons, List.mem_singleton] at hmem
  rcases hmem with hmem | hmem <;> exact Event.noConfusion hmem

/-- Witness for C7 at a concrete precertificate leaf, with a matcher that
rejects everything (the callback fires regardless). -/
theorem processEntry_precert_callback_and_counter_witness :
    processEntry leafParserDemo certParserFail (fun _ => false) ⟨7, 3⟩ 11 [1] =
      ({ certsProcessed := 7 + 1, precertsSeen := 3 + 1 },
       [Event.logLine ("Precert not yet supported (index " ++
          toString (11 : Int) ++ ")."),
        Event.precertCallback 11 ""]) ∧
    ∀ i c, Event.certCallback i c ∉
      (processEntry leafParserDemo certParserFail (fun _ => false) ⟨7, 3⟩ 11
        [1]).2 :=
  processEntry_precert_callback_and_counter leafParserDemo certParserFail
    (fun _ => false) ⟨7, 3⟩ 11 [1] ⟨⟨.precertLogEntryType, []⟩⟩ rfl rfl

/-- C10: a classify job whose leaf decodes to an entry type that is neither
X.509 nor precert is silently dropped: `certsProcessed` still increments,
`precertsSeen` is unchanged, and no event at all — no callback and no log
line — is emitted. -/
theorem processEntry_unknown_entry_type_silently_dropped
    (newMerkleTreeLeaf : LeafInput → Except String MerkleTreeLeaf)
    (parseCertificate : LeafInput → Except String Certificate)
    (matcher : Matcher) (st : ScanState) (index : Int) (leafInput : LeafInput)
    (leaf : MerkleTreeLeaf) (code : Nat)
    (hleaf : newMerkleTreeLeaf leafInput = Except.ok leaf)
    (htype : leaf.timestampedEntry.entryType =
      LogEntryType.unknownLogEntryType code) :
    processEntry newMerkleTreeLeaf parseCertificate matcher st index
        leafInput =
      ({ certsProcessed := st.certsProcessed + 1,
         precertsSeen := st.precertsSeen }, []) := by
  simp [processEntry, hleaf, htype]

/-- Witness for C10 at a concrete unknown-typed leaf. -/
theorem processEntry_unknown_entry_type_silently_dropped_witness :
    processEntry leafParserDemo certParserFail (fun _ => true) ⟨9, 4⟩ 13 [2] =
      ({ certsProcessed := 9 + 1, precertsSeen := 4 }, []) :=
  processEntry_unknown_entry_type_silently_dropped leafParserDemo
    certParserFail (fun _ => true) ⟨9, 4⟩ 13 [2] ⟨⟨.unknownLogEntryType 3, []⟩⟩
    3 rfl rfl

/-- C1: for every batch `{start, end}` with `start ≤ end`, if every
successful `GetEntries(cursor, end)` call in the run returns at least one and
at most `end - cursor + 1` leaves (transport errors — any finite number —
merely repeat the call), then the fetch worker completes the batch and emits
exactly one classify job for each index in `[start, end]`, in strictly
increasing index order with no duplicate or omission: the emitted index list
is exactly `start, start+1, …, end`. -/
theorem fetcherJob_emits_each_index_exactly_once
    (responses : List (Except String (List LeafInput))) (start e : Int)
    (hse : start ≤ e)
    (hgood : goodResponses responses start e = true) :
    ∃ jobs, runFetchRange responses start e = some jobs ∧
      jobs.map matcherJob.index = intRange start (e + 1 - start).toNat :=
  runFetchRange_good responses start e hse hgood

/-- Witness for C1: one transport failure, then delivery in two partial
chunks; the three jobs carry indices 0, 1, 2. -/
theorem fetcherJob_emits_each_index_exactly_once_witness :
    ∃ jobs,
      runFetchRange [Except.error "net", Except.ok [[10]],
        Except.ok [[11], [12]]] 0 2 = some jobs ∧
      jobs.map matcherJob.index = intRange 0 ((2 : Int) + 1 - 0).toNat :=
  fetcherJob_emits_each_index_exactly_once
    [Except.error "net", Except.ok [[10]], Except.ok [[11], [12]]] 0 2
    (by decide) (by decide)

/-- C4: for `startIndex < treeSize` and `batchSize > 0`, the generated batch
sequence covers `[startIndex, treeSize)` with no gap and no overlap (its
ranges flatten to exactly `startIndex, …, treeSize - 1` in order), every
batch satisfies `start ≤ end` with `end` inside `[startIndex, treeSize - 1]`,
and batch start values are strictly increasing. -/
theorem genRanges_covers_without_gap_or_overlap
    (startIndex treeSize blockSize : Int)
    (_h1 : startIndex < treeSize) (h2 : 0 < blockSize) :
    (genRanges startIndex treeSize blockSize).flatMap rangeIndices =
      intRange startIndex (treeSize - startIndex).toNat ∧
    (∀ r ∈ genRanges startIndex treeSize blockSize,
      r.start ≤ r.«end» ∧ startIndex ≤ r.«end» ∧ r.«end» ≤ treeSize - 1) ∧
    (genRanges startIndex treeSize blockSize).Chain'
      (fun a b => a.start < b.start) := by
  refine ⟨?_, ?_, ?_⟩
  · exact genRangesAux_flatten treeSize blockSize (le_of_lt h2) _ startIndex
      le_rfl
  · intro r hr
    have h := genRangesAux_bounds treeSize blockSize (le_of_lt h2) _
      startIndex r hr
    exact ⟨h.2.1, le_trans h.1 h.2.1, h.2.2⟩
  · exact genRangesAux_chain treeSize blockSize (le_of_lt h2) _ startIndex

/-- Witness for C4 at `startIndex = 0`, `treeSize = 5`, `batchSize = 2`. -/
theorem genRanges_covers_without_gap_or_overlap_witness :
    (genRanges 0 5 2).flatMap rangeIndices =
      intRange 0 ((5 : Int) - 0).toNat ∧
    (∀ r ∈ genRanges 0 5 2,
      r.start ≤ r.«end» ∧ (0 : Int) ≤ r.«end» ∧ r.«end» ≤ (5 : Int) - 1) ∧
    (genRanges 0 5 2).Chain' (fun a b => a.start < b.start) :=
  genRanges_covers_without_gap_or_overlap 0 5 2 (by decide) (by decide)

/-- C3 is false of the code: with `startIndex = 0`, `treeSize = 100`,
`batchSize = 10` the very first generated batch is `{0, 10}`, which spans
`end - start + 1 = 11 > batchSize` indices, because `Scan` computes
`end = min(start + blockSize, treeSize - 1)` rather than
`min(start + blockSize - 1, treeSize - 1)` — contradicting the `BlockSize`
field's own comment ("Number of entries to request in one batch from the
Log"). -/
theorem genRanges_first_batch_spans_blockSize_plus_one :
    ∃ r ∈ genRanges 0 100 10, ¬(r.«end» - r.start + 1 ≤ 10) := by
  decide

/-- C2 fails as stated at `startIndex = 1`, `treeSize = 0`: the scan is
successful (`GetSTH` succeeds and there is no batch to fetch, so every batch
fetch trivially succeeds), it processes 0 entries — but
`treeSize - startIndex = -1 ≠ 0`. -/
theorem scan_count_start_past_tree_counterexample :
    Scan clientEmpty optsPastEnd leafParserFail certParserFail =
      ScanOutcome.done
        { certsProcessed := 0, precertsSeen := 0, jobs := [], events := [],
          tickerStarted := true, tickerStopped := false } ∧
    ¬((0 : Int) = 0 - 1) :=
  ⟨rfl, by decide⟩

/-- C2 (amended): for every successful `Scan` call whose start index does not
exceed the tree size — `GetSTH` returns `sth`, `startIndex ≤ treeSize`, the
(non-negative) block size lets the range loop terminate, and every batch's
transport schedule satisfies the delivery hypothesis — the final
`certsProcessed` counter equals `treeSize - startIndex`, each index in
`[startIndex, treeSize)` having been delivered as a classify job exactly
once, with no duplicate and no omission. -/
theorem scan_processes_each_index_exactly_once (client : LogClient)
    (opts : ScannerOptions)
    (newMerkleTreeLeaf : LeafInput → Except String MerkleTreeLeaf)
    (parseCertificate : LeafInput → Except String Certificate) (sth : STH)
    (hsth : client.getSTH = Except.ok sth)
    (hstart : opts.startIndex ≤ sth.treeSize)
    (hblock : 0 ≤ opts.blockSize)
    (hgood : ∀ r ∈ genRanges opts.startIndex sth.treeSize opts.blockSize,
      goodResponses (client.entriesSchedule r) r.start r.«end» = true) :
    ∃ res, Scan client opts newMerkleTreeLeaf parseCertificate =
        ScanOutcome.done res ∧
      res.certsProcessed = sth.treeSize - opts.startIndex ∧
      res.jobs.map matcherJob.index =
        intRange opts.startIndex (sth.treeSize - opts.startIndex).toNat := by
  have hper : ∀ r ∈ genRanges opts.startIndex sth.treeSize opts.blockSize,
      ∃ jobs, runFetchRange (client.entriesSchedule r) r.start r.«end» =
        some jobs ∧ jobs.map matcherJob.index = rangeIndices r := by
    intro r hr
    have hb := genRangesAux_bounds sth.treeSize opts.blockSize hblock
      (sth.treeSize - opts.startIndex).toNat opts.startIndex r hr
    obtain ⟨jobs, h1, h2⟩ := runFetchRange_good (client.entriesSchedule r)
      r.start r.«end» hb.2.1 (hgood r hr)
    exact ⟨jobs, h1, by rw [h2, rangeIndices_def]⟩
  obtain ⟨jobs, hrb, hmap⟩ := runBatches_all_good client.entriesSchedule
    (genRanges opts.startIndex sth.treeSize opts.blockSize) hper
  have hflat := genRangesAux_flatten sth.treeSize opts.blockSize hblock
    (sth.treeSize - opts.startIndex).toNat opts.startIndex le_rfl
  have hmap' : jobs.map matcherJob.index =
      intRange opts.startIndex (sth.treeSize - opts.startIndex).toNat := by
    rw [hmap, genRanges, hflat]
  refine ⟨{ certsProcessed := (processJobs newMerkleTreeLeaf parseCertificate
              opts.matcher ⟨0, 0⟩ jobs).1.certsProcessed,
            precertsSeen := (processJobs newMerkleTreeLeaf parseCertificate
              opts.matcher ⟨0, 0⟩ jobs).1.precertsSeen,
            jobs := jobs,
            events := (processJobs newMerkleTreeLeaf parseCertificate
              opts.matcher ⟨0, 0⟩ jobs).2,
            tickerStarted := true, tickerStopped := false }, ?_, ?_, ?_⟩
  · simp only [Scan, hsth, hrb]
  · have hc := processJobs_certsProcessed newMerkleTreeLeaf parseCertificate
      opts.matcher jobs ⟨0, 0⟩
    have hlen : jobs.length = (sth.treeSize - opts.startIndex).toNat := by
      have h := congrArg List.length hmap'
      rw [List.length_map, intRange_length] at h
      exact h
    rw [hc, hlen]
    show (0 : Int) + ((sth.treeSize - opts.startIndex).toNat : Int) =
      sth.treeSize - opts.startIndex
    omega
  · exact hmap'

/-- Witness for C2 (amended): a three-entry log, one transport failure, two
partial chunks; the scan completes with `certsProcessed = 3 - 0` and jobs
carrying indices 0, 1, 2. -/
theorem scan_processes_each_index_exactly_once_witness :
    ∃ res, Scan clientSmall optsDefault leafParserFail certParserFail =
        ScanOutcome.done res ∧
      res.certsProcessed = (3 : Int) - 0 ∧
      res.jobs.map matcherJob.index = intRange 0 ((3 : Int) - 0).toNat :=
  scan_processes_each_index_exactly_once clientSmall optsDefault
    leafParserFail certParserFail ⟨3⟩ rfl (by decide) (by decide) (by decide)

/-- C5: `Scan` returns a non-nil error exactly when the initial `GetSTH` call
fails, and then it is that very error, returned before any batch is enqueued
or any worker started (the `fatal` outcome carries no pipeline activity);
conversely, when `GetSTH` succeeds and every batch fetch eventually succeeds,
`Scan` returns nil whatever decode failures occur (the leaf and certificate
parsers are universally quantified). -/
theorem scan_returns_error_iff_getSTH_fails (client : LogClient)
    (opts : ScannerOptions)
    (newMerkleTreeLeaf : LeafInput → Except String MerkleTreeLeaf)
    (parseCertificate : LeafInput → Except String Certificate) :
    (∀ e, client.getSTH = Except.error e →
      Scan client opts newMerkleTreeLeaf parseCertificate =
        ScanOutcome.fatal e) ∧
    (∀ e, Scan client opts newMerkleTreeLeaf parseCertificate =
        ScanOutcome.fatal e → client.getSTH = Except.error e) ∧
    (∀ sth, client.getSTH = Except.ok sth →
      (∀ r ∈ genRanges opts.startIndex sth.treeSize opts.blockSize,
        (runFetchRange (client.entriesSchedule r) r.start
          r.«end»).isSome = true) →
      ∃ res, Scan client opts newMerkleTreeLeaf parseCertificate =
        ScanOutcome.done res) := by
  refine ⟨?_, ?_, ?_⟩
  · intro e he
    simp only [Scan, he]
  · intro e he
    rcases hsth : client.getSTH with e' | sth
    · simp only [Scan, hsth] at he
      injection he with he'
      rw [he']
    · exfalso
      simp only [Scan, hsth] at he
      rcases hrb : runBatches client.entriesSchedule
          (genRanges opts.startIndex sth.treeSize opts.blockSize) with
        _ | jobs
      · rw [hrb] at he
        exact ScanOutcome.noConfusion he
      · rw [hrb] at he
        exact ScanOutcome.noConfusion he
  · intro sth hsth hcomp
    obtain ⟨jobs, hrb⟩ := runBatches_complete client.entriesSchedule
      (genRanges opts.startIndex sth.treeSize opts.blockSize) hcomp
    refine ⟨{ certsProcessed := (processJobs newMerkleTreeLeaf
                parseCertificate opts.matcher ⟨0, 0⟩ jobs).1.certsProcessed,
              precertsSeen := (processJobs newMerkleTreeLeaf parseCertificate
                opts.matcher ⟨0, 0⟩ jobs).1.precertsSeen,
              jobs := jobs,
              events := (processJobs newMerkleTreeLeaf parseCertificate
                opts.matcher ⟨0, 0⟩ jobs).2,
              tickerStarted := true, tickerStopped := false }, ?_⟩
    simp only [Scan, hsth, hrb]

/-- Witness for C5: a transport whose `GetSTH` fails with "boom" makes `Scan`
return exactly that error. -/
theorem scan_returns_error_iff_getSTH_fails_witness :
    Scan clientBad optsDefault leafParserFail certParserFail =
      ScanOutcome.fatal "boom" :=
  (scan_returns_error_iff_getSTH_fails clientBad optsDefault leafParserFail
    certParserFail).1 "boom" rfl

/-- C9 is false of the code: on every normal-completion path of `Scan` the
once-per-second reporter ticker is started (`time.NewTicker`) and is never
stopped — `ticker.Stop()` is absent from `Scan` — so the reporter keeps
running after the scan ends; on the fatal path the ticker is never created at
all. -/
theorem scan_never_stops_reporter_ticker (client : LogClient)
    (opts : ScannerOptions)
    (newMerkleTreeLeaf : LeafInput → Except String MerkleTreeLeaf)
    (parseCertificate : LeafInput → Except String Certificate)
    (res : ScanResult)
    (h : Scan client opts newMerkleTreeLeaf parseCertificate =
      ScanOutcome.done res) :
    res.tickerStarted = true ∧ res.tickerStopped = false := by
  rcases hsth : client.getSTH with e | sth
  · simp only [Scan, hsth] at h
    exact ScanOutcome.noConfusion h
  · simp only [Scan, hsth] at h
    rcases hrb : runBatches client.entriesSchedule
        (genRanges opts.startIndex sth.treeSize opts.blockSize) with _ | jobs
    · rw [hrb] at h
      exact ScanOutcome.noConfusion h
    · rw [hrb] at h
      injection h with h'
      rw [← h']
      exact ⟨rfl, rfl⟩

/-- Witness for C9's refutation: a concrete completed scan whose result still
has the ticker running. -/
theorem scan_never_stops_reporter_ticker_witness :
    ∃ res, Scan clientSmall optsDefault leafParserFail certParserFail =
        ScanOutcome.done res ∧
      res.tickerStarted = true ∧ res.tickerStopped = false :=
  ⟨_, rfl, scan_never_stops_reporter_ticker clientSmall optsDefault
    leafParserFail certParserFail _ rfl⟩

end Scanner
